import Mathlib

/-!
Verification of the pocket CLI's parsing and selection logic.

Shallow embedding of the Go sources:
* the translation subcommand's `bestTranslation` selection heuristic,
* the contacts subcommand's delimiter-based parsers (the loops of
  `newListCmd`, `newSearchCmd`, `newGroupsCmd`, `newGroupCmd`) and
  `cleanLabel`,
* the contacts subcommand's `runOsascript` error classification,
* the wifi utility's `parseChannelNumber`, `cleanSecurityMode`,
  `parseSignalNoise`, `findWiFiInterface`, `parseSystemProfilerScan`
  and `parseSystemProfilerCurrent`.

Go `string` is modelled as Lean `String`; the handful of library string
operations the code uses (`strings.Split`, `strings.TrimSpace`,
`strings.ToLower`, `strings.TrimPrefix`, `strings.TrimSuffix`,
`strings.Fields`, `strings.ReplaceAll`, `strconv.Atoi`, `fmt.Sscanf`
with `%d`) are implemented below by structural recursion on the
character list so that every definition evaluates inside the kernel.
Go `float64` match scores are modelled as `Rat`: `bestTranslation` only
ever compares scores (with `>` and `==`), never does arithmetic on
them, so a linearly ordered exact model is faithful to those
comparisons.  Go `int` is modelled as `Int`, with the 64-bit range of
`strconv.Atoi`/`strconv.ParseInt` made explicit where the code's
behaviour depends on it.
-/

namespace Pocket

/-! ### String primitives shared by all components -/

/-- Whitespace as recognised by Go's `unicode.IsSpace` (the ASCII part
plus NEL and NBSP; the exotic Unicode space classes never occur in the
data handled here). Used to model `strings.TrimSpace` and
`strings.Fields`. -/
def isGoSpace (c : Char) : Bool :=
  c = ' ' || c = '\t' || c = '\n' || c = '\x0b' || c = '\x0c' || c = '\r' ||
  c = '\x85' || c = '\xa0'

/-- Model of Go `strings.TrimSpace`. -/
def goTrimSpace (s : String) : String :=
  ⟨((s.data.dropWhile isGoSpace).reverse.dropWhile isGoSpace).reverse⟩

/-- Model of Go `strings.ToLower` (character-wise lowering; the inputs
involved are ASCII). -/
def goToLower (s : String) : String :=
  ⟨s.data.map Char.toLower⟩

/-- Character-list form of Go `strings.TrimPrefix`. -/
def trimPreL (p s : List Char) : List Char :=
  if p.isPrefixOf s then s.drop p.length else s

/-- Character-list form of Go `strings.TrimSuffix`. -/
def trimSufL (q s : List Char) : List Char :=
  if q.isSuffixOf s then s.take (s.length - q.length) else s

/-- Model of Go `strings.TrimPrefix p` applied to `s` (note the Go
argument order is `TrimPrefix(s, p)`): remove `p` from the front of
`s` when it is present, otherwise return `s` unchanged. -/
def goTrimPre (p s : String) : String := ⟨trimPreL p.data s.data⟩

/-- Model of Go `strings.TrimSuffix q` applied to `s`: remove `q` from
the end of `s` when it is present, otherwise return `s` unchanged. -/
def goTrimSuf (q s : String) : String := ⟨trimSufL q.data s.data⟩

/-- Worker for `goSplit`.  The fuel argument only serves to make the
recursion structural; it is initialised to the length of the input, and
since every step consumes at least one character (the separator is
non-empty in every call site) the zero-fuel case is never reached. -/
def goSplitAux (sep : List Char) : Nat → List Char → List Char → List (List Char)
  | _, [], acc => [acc.reverse]
  | 0, cs, acc => [acc.reverse ++ cs]
  | fuel + 1, c :: rest, acc =>
    if !sep.isEmpty && sep.isPrefixOf (c :: rest) then
      acc.reverse :: goSplitAux sep fuel ((c :: rest).drop sep.length) []
    else
      goSplitAux sep fuel rest (c :: acc)

/-- Model of Go `strings.Split(s, sep)` for a non-empty separator:
split around every non-overlapping, leftmost-first occurrence of
`sep`.  In particular `goSplit sep "" = [""]`, as in Go. -/
def goSplit (sep s : String) : List String :=
  (goSplitAux sep.data s.data.length s.data []).map String.mk

/-- Decimal value of a digit string. -/
def digitsVal (ds : List Char) : Nat :=
  ds.foldl (fun a c => a * 10 + (c.toNat - '0'.toNat)) 0

/-- Signed decimal value of an optional minus sign plus digit string. -/
def intVal (neg : Bool) (ds : List Char) : Int :=
  if neg then -(digitsVal ds : Int) else (digitsVal ds : Int)

/-- `math.MaxInt64`: Go `int` is 64 bits on the darwin/arm64 and
darwin/amd64 targets this code runs on. -/
def int64Max : Int := 9223372036854775807

/-- `math.MinInt64`. -/
def int64Min : Int := -9223372036854775808

/-- Clamping to the `int64` range, as `strconv.ParseInt` does on a
range error (it returns the maximum magnitude value of the right
sign together with `ErrRange`). -/
def clampInt64 (v : Int) : Int :=
  if v < int64Min then int64Min else if int64Max < v then int64Max else v

/-- Leading `+`/`-` sign accepted by `strconv.Atoi` and by the `%d`
verb of `fmt.Sscanf`. -/
def parseSign : List Char → Bool × List Char
  | [] => (false, [])
  | c :: r => if c = '-' then (true, r) else if c = '+' then (false, r) else (false, c :: r)

/-- Model of `strconv.Atoi` with the error observed (as in
`parseChannelNumber`, which returns 0 whenever `err != nil`): `none`
on a syntax error (empty input, bare sign, trailing non-digits) and on
an `int64` range error. -/
def goAtoi (s : String) : Option Int :=
  match s.data with
  | [] => none
  | cs =>
    let r := (parseSign cs).2
    if r = [] then none
    else if r.all Char.isDigit then
      if intVal (parseSign cs).1 r < int64Min ∨ int64Max < intVal (parseSign cs).1 r
      then none
      else some (intVal (parseSign cs).1 r)
    else none

/-- Model of `fmt.Sscanf(s, "%d", &n)` as used in `newGroupsCmd`: skip
leading spaces, read an optional sign and a digit run; on a missing
digit run or an `int64` range error the scan fails and `n` keeps its
zero value; trailing non-digit input is ignored. -/
def scanInt (s : String) : Int :=
  let cs := s.data.dropWhile isGoSpace
  let r := (parseSign cs).2
  let ds := r.takeWhile Char.isDigit
  if ds = [] then 0
  else if intVal (parseSign cs).1 ds < int64Min ∨ int64Max < intVal (parseSign cs).1 ds
  then 0
  else intVal (parseSign cs).1 ds

/-! ### Translation: `bestTranslation` (translate.go) -/

/-- One entry of the MyMemory response's `matches` array, as decoded in
`newTextCmd`: a candidate translation with its match score.  The
`quality` field is decoded by the Go code but never read, so it is
omitted. -/
structure MMatch where
  translation : String
  matchScore : Rat
deriving DecidableEq, Repr

/-- The first loop of `bestTranslation`: starting from the first
candidate's score, raise the running best whenever a later candidate's
score is strictly greater. -/
def bestScoreLoop (init : Rat) (rest : List MMatch) : Rat :=
  rest.foldl (fun bestScore m =>
    if bestScore < m.matchScore then m.matchScore else bestScore) init

/-- The `counts` map of `bestTranslation`: how many candidates lowercase
to `key` and carry score `bestScore` (the Go loop guards on
`m.Match == bestScore` and increments `counts[strings.ToLower(...)]`;
the conjunction is written value-test-first here, which is the same
predicate). -/
def countsAt (ms : List MMatch) (bestScore : Rat) (key : String) : Nat :=
  ms.countP (fun m =>
    decide (goToLower m.translation = key) && decide (m.matchScore = bestScore))

/-- The second loop of `bestTranslation`: scan the candidates in order,
and on each one whose score equals `bestScore`, replace the running
answer when its occurrence count strictly exceeds the running count. -/
def selectLoop (counts : String → Nat) (bestScore : Rat)
    (l : List MMatch) (acc : String × Nat) : String × Nat :=
  l.foldl (fun acc m =>
    if m.matchScore = bestScore then
      if acc.2 < counts (goToLower m.translation) then
        (m.translation, counts (goToLower m.translation))
      else acc
    else acc) acc

/-- Embedding of `bestTranslation` (translate.go): empty input yields
`("", 0)`; otherwise compute the maximum score, count case-folded
occurrences at that score, and scan for the most frequent one,
starting from the first candidate's text and a zero count. -/
def bestTranslation (ms : List MMatch) : String × Rat :=
  match ms with
  | [] => ("", 0)
  | m0 :: rest =>
    let bestScore := bestScoreLoop m0.matchScore rest
    let r := selectLoop (countsAt (m0 :: rest) bestScore) bestScore
      (m0 :: rest) (m0.translation, 0)
    (r.1, bestScore)

/-- The candidates whose score equals `s`, in original order. -/
def scoreFilter (ms : List MMatch) (s : Rat) : List MMatch :=
  ms.filter (fun m => decide (m.matchScore = s))

/-- Occurrence count of case-folded `key` in a tied-candidate list. -/
def occOf (tied : List MMatch) (key : String) : Nat :=
  tied.countP (fun m => decide (goToLower m.translation = key))

/-- Highest case-insensitive occurrence count in a tied-candidate list. -/
def topCountOf (tied : List MMatch) : Nat :=
  tied.foldl (fun n m => max n (occOf tied (goToLower m.translation))) 0

/-- Written from the spec's words (§4.4), for comparison with
`bestTranslation`: among the candidates tied at the maximum score,
count occurrences of each distinct text case-insensitively and return
the text with the highest occurrence count, taking the first in
original order on ties. -/
def mostFrequentFirst (ms : List MMatch) (best : Rat) : Option String :=
  ((scoreFilter ms best).find? (fun m =>
      decide (occOf (scoreFilter ms best) (goToLower m.translation)
        = topCountOf (scoreFilter ms best)))).map MMatch.translation

/-! ### Contacts: delimiter-based record parsers (contacts.go) -/

/-- Simplified contact used by the list/search/group loops. -/
structure ContactSummary where
  name : String
  email : String
  phone : String
  company : String
deriving DecidableEq, Repr

/-- A contact group (`newGroupsCmd`). -/
structure Group where
  name : String
  count : Int
deriving DecidableEq, Repr

/-- The `if c.Company == "null" { c.Company = "" }` normalization of
`newListCmd`/`newSearchCmd` (JXA returns `"null"` for a missing
organization).  Only the company field is inspected. -/
def nullNorm (c : ContactSummary) : ContactSummary :=
  if c.company = "null" then { c with company := "" } else c

/-- One iteration of the record loop shared by `newListCmd` and
`newSearchCmd`: split a record on the field separator `"|||"`, drop it
when fewer than 4 fields result, trim each of the first four fields,
and apply the company `"null"` normalization. -/
def parseContactItem (item : String) : Option ContactSummary :=
  if 4 ≤ (goSplit "|||" item).length then
    some (nullNorm
      { name := goTrimSpace ((goSplit "|||" item).getD 0 "")
        email := goTrimSpace ((goSplit "|||" item).getD 1 "")
        phone := goTrimSpace ((goSplit "|||" item).getD 2 "")
        company := goTrimSpace ((goSplit "|||" item).getD 3 "") })
  else none

/-- The body shared by the record loops: append the parse of a record
when it is well-formed, keep the accumulator unchanged otherwise. -/
def optStep {γ : Type} (f : String → Option γ) (acc : List γ) (item : String) :
    List γ :=
  match f item with
  | some c => acc ++ [c]
  | none => acc

/-- The record loop of `newListCmd` (and, identically, `newSearchCmd`):
split the response on the record separator `":::"` and append one
`ContactSummary` per well-formed record. -/
def parseContacts (contactData : String) : List ContactSummary :=
  (goSplit ":::" contactData).foldl (optStep parseContactItem) []

/-- One iteration of the record loop of `newGroupsCmd`: split a record
on `"|||"`, drop it when fewer than 2 fields result, and scan the
second field as a decimal count. -/
def parseGroupItem (item : String) : Option Group :=
  if 2 ≤ (goSplit "|||" item).length then
    some { name := goTrimSpace ((goSplit "|||" item).getD 0 "")
           count := scanInt (goTrimSpace ((goSplit "|||" item).getD 1 "")) }
  else none

/-- The record loop of `newGroupsCmd`. -/
def parseGroups (result : String) : List Group :=
  (goSplit ":::" result).foldl (optStep parseGroupItem) []

/-- One iteration of the record loop of `newGroupCmd` (contacts of one
group): same 4-field minimum as the list loop, but without the
`"null"` normalization, which that loop does not perform. -/
def parseGroupContactItem (item : String) : Option ContactSummary :=
  if 4 ≤ (goSplit "|||" item).length then
    some { name := goTrimSpace ((goSplit "|||" item).getD 0 "")
           email := goTrimSpace ((goSplit "|||" item).getD 1 "")
           phone := goTrimSpace ((goSplit "|||" item).getD 2 "")
           company := goTrimSpace ((goSplit "|||" item).getD 3 "") }
  else none

/-- The record loop of `newGroupCmd`, including its limit logic: stop
as soon as `limit` well-formed records were produced when `limit > 0`,
count only well-formed records. -/
def parseGroupContactsLoop (limit : Int) : List String → Int → List ContactSummary
  | [], _ => []
  | item :: rest, count =>
    if 0 < limit ∧ limit ≤ count then []
    else
      match parseGroupContactItem item with
      | some c => c :: parseGroupContactsLoop limit rest (count + 1)
      | none => parseGroupContactsLoop limit rest count

/-- The full parse of `newGroupCmd`'s response. -/
def parseGroupContacts (limit : Int) (result : String) : List ContactSummary :=
  parseGroupContactsLoop limit (goSplit ":::" result) 0

/-- Embedding of `cleanLabel` (contacts.go): strip the AppleScript
label sentinels, first the prefix `"_$!<"`, then the suffix `">!$_"`. -/
def cleanLabel (label : String) : String :=
  goTrimSuf ">!$_" (goTrimPre "_$!<" label)

/-! ### Contacts: `runOsascript` error classification (contacts.go) -/

/-- What the Go code observes about one `osascript` child process run:
its captured output buffers, whether `cmd.Run()` returned an error,
whether the context's deadline had expired (`ctx.Err() ==
context.DeadlineExceeded`), and the text of the `cmd.Run()` error.
The real-time mechanics of the 30-second deadline live outside the
embedding; the classification logic below is what `runOsascript` does
with an observed outcome. -/
structure ProcRun where
  stdout : String
  stderr : String
  failed : Bool
  deadlineExceeded : Bool
  errText : String
deriving DecidableEq, Repr

/-- `appleScriptTimeout` rendered by `fmt.Errorf("%s", ...)`:
`(30 * time.Second).String() = "30s"`. -/
def appleScriptTimeoutStr : String := "30s"

/-- Embedding of `runOsascript`'s result handling: on success, the
trimmed stdout; on failure with the deadline exceeded, the fixed
timeout message; on any other failure, the trimmed stderr, falling
back to the error text only when the raw stderr is empty. -/
def runOsascriptResult (r : ProcRun) : Except String String :=
  if r.failed then
    if r.deadlineExceeded then
      Except.error ("osascript timed out after " ++ appleScriptTimeoutStr)
    else
      Except.error (goTrimSpace (if r.stderr = "" then r.errText else r.stderr))
  else
    Except.ok (goTrimSpace r.stdout)

/-! ### WiFi: string parsers (wifi.go) -/

/-- Model of Go `strings.Fields` worker: split on runs of whitespace,
keeping only the non-empty words. -/
def goFieldsAux : List Char → List Char → List String
  | [], [] => []
  | [], w => [⟨w.reverse⟩]
  | c :: rest, w =>
    if isGoSpace c then
      if w = [] then goFieldsAux rest [] else ⟨w.reverse⟩ :: goFieldsAux rest []
    else goFieldsAux rest (c :: w)

/-- Model of Go `strings.Fields`. -/
def goFields (s : String) : List String := goFieldsAux s.data []

/-- Embedding of `parseChannelNumber` (wifi.go): the first
space-delimited token read as a decimal number, 0 on an empty string,
no token, or any `strconv.Atoi` error. -/
def parseChannelNumber (ch : String) : Int :=
  if ch = "" then 0
  else
    match goFields ch with
    | [] => 0
    | p :: _ =>
      match goAtoi p with
      | none => 0
      | some v => v

/-- Model of `strings.ReplaceAll(s, "_", "-")` (a single-character
pattern, so character-wise replacement is exact). -/
def underscoreToHyphen (s : String) : String :=
  ⟨s.data.map (fun c => if c = '_' then '-' else c)⟩

/-- Embedding of `cleanSecurityMode` (wifi.go): empty stays empty;
otherwise strip the leading `"spairport_security_mode_"` when present
and replace underscores with hyphens. -/
def cleanSecurityMode (mode : String) : String :=
  if mode = "" then ""
  else underscoreToHyphen (goTrimPre "spairport_security_mode_" mode)

/-- Whitespace class `\s` of Go's RE2 regexp engine: `[\t\n\f\r ]`. -/
def isSpaceRE (c : Char) : Bool :=
  c = ' ' || c = '\t' || c = '\n' || c = '\x0c' || c = '\r'

/-- Match a literal at the head of the input, returning the rest. -/
def dropLit (lit cs : List Char) : Option (List Char) :=
  if lit.isPrefixOf cs then some (cs.drop lit.length) else none

/-- The `-?` of the signal/noise pattern. -/
def parseNeg : List Char → Bool × List Char
  | [] => (false, [])
  | c :: r => if c = '-' then (true, r) else (false, c :: r)

/-- `strconv.Atoi` on a captured `-?\d+` group with the error ignored
(as `parseSignalNoise` does): the only possible error is a range
error, for which `ParseInt` hands back the clamped value. -/
def atoiClamp (neg : Bool) (ds : List Char) : Int := clampInt64 (intVal neg ds)

/-- One `(-?\d+)\s*dBm` unit of the pattern: the optional sign, a
non-empty greedy digit run, optional whitespace and the literal `dBm`;
returns the sign, the digits, and the unconsumed rest. -/
def parseNumDBm (cs : List Char) : Option (Bool × List Char × List Char) :=
  if (parseNeg cs).2.takeWhile Char.isDigit = [] then none
  else
    match dropLit ['d', 'B', 'm']
        (((parseNeg cs).2.dropWhile Char.isDigit).dropWhile isSpaceRE) with
    | none => none
    | some cs3 => some ((parseNeg cs).1, (parseNeg cs).2.takeWhile Char.isDigit, cs3)

/-- One attempted match of the unanchored RE2 pattern
`(-?\d+)\s*dBm\s*/\s*(-?\d+)\s*dBm` at the head of the input.  For
this pattern the greedy parse below is exhaustive: each `\d+`/`\s*`
run is followed by a character that cannot extend it, so RE2's
backtracking never picks a shorter run. -/
def parseSNAt (cs : List Char) : Option (Int × Int) :=
  match parseNumDBm cs with
  | none => none
  | some (neg1, d1, cs3) =>
    match cs3.dropWhile isSpaceRE with
    | [] => none
    | c :: cs5 =>
      if c = '/' then
        match parseNumDBm (cs5.dropWhile isSpaceRE) with
        | none => none
        | some (neg2, d2, _) => some (atoiClamp neg1 d1, atoiClamp neg2 d2)
      else none

/-- Leftmost match, as `regexp.FindStringSubmatch` computes it. -/
def findSN : List Char → Option (Int × Int)
  | [] => none
  | c :: rest =>
    match parseSNAt (c :: rest) with
    | some rn => some rn
    | none => findSN rest

/-- Embedding of `parseSignalNoise` (wifi.go): `(0, 0)` on an empty
string or when the pattern does not match; otherwise the two captured
numbers of the leftmost match. -/
def parseSignalNoise (sn : String) : Int × Int :=
  if sn = "" then (0, 0)
  else
    match findSN sn.data with
    | some rn => rn
    | none => (0, 0)

/-- Written from the spec's words: the string starts with the
`"<n> dBm / <m> dBm"` pattern with signed decimal numbers `r` and `n`
(arbitrary trailing input allowed). -/
def SNShapeAt (cs : List Char) (r n : Int) : Prop :=
  ∃ (neg1 : Bool) (d1 w1 w2 w3 : List Char) (neg2 : Bool) (d2 w4 rest : List Char),
    cs = (if neg1 then ['-'] else []) ++ d1 ++ w1 ++ ['d', 'B', 'm'] ++ w2 ++ ['/']
      ++ w3 ++ (if neg2 then ['-'] else []) ++ d2 ++ w4 ++ ['d', 'B', 'm'] ++ rest
    ∧ d1 ≠ [] ∧ (∀ c ∈ d1, c.isDigit = true)
    ∧ d2 ≠ [] ∧ (∀ c ∈ d2, c.isDigit = true)
    ∧ (∀ c ∈ w1, isSpaceRE c = true) ∧ (∀ c ∈ w2, isSpaceRE c = true)
    ∧ (∀ c ∈ w3, isSpaceRE c = true) ∧ (∀ c ∈ w4, isSpaceRE c = true)
    ∧ r = intVal neg1 d1 ∧ n = intVal neg2 d2

/-! ### WiFi: `system_profiler` interface selection (wifi.go) -/

/-- One scanned or current network (`spAirPortNetwork`). -/
structure SPAirPortNetwork where
  name : String
  channel : String
  securityMode : String
  signalNoise : String
  phyMode : String
  rate : Int
  mcs : Int
deriving DecidableEq, Repr

/-- One airport interface (`spAirPortInterface`). -/
structure SPAirPortInterface where
  name : String
  status : String
  currentNetwork : Option SPAirPortNetwork
  otherNetworks : List SPAirPortNetwork
  macAddress : String
deriving DecidableEq, Repr

/-- One entry of the `SPAirPortDataType` array. -/
structure SPEntry where
  interfaces : List SPAirPortInterface
deriving DecidableEq, Repr

/-- The decoded `system_profiler SPAirPortDataType -json` document. -/
structure SystemProfilerAirPort where
  SPAirPortDataType : List SPEntry
deriving DecidableEq, Repr

/-- The loop of `findWiFiInterface`: the first interface named
`"en0"`. -/
def findEn0 : List SPAirPortInterface → Option SPAirPortInterface
  | [] => none
  | i :: rest => if i.name = "en0" then some i else findEn0 rest

/-- Embedding of `findWiFiInterface` (wifi.go).  The `[]byte` input and
`json.Unmarshal` step are modelled by an `Option`: `none` is a payload
that fails to decode, `some sp` the decoded document. -/
def findWiFiInterface (d : Option SystemProfilerAirPort) : Option SPAirPortInterface :=
  match d with
  | none => none
  | some sp =>
    match sp.SPAirPortDataType with
    | [] => none
    | e :: _ =>
      match findEn0 e.interfaces with
      | some i => some i
      | none => e.interfaces.head?

/-- A scanned network in the output of `wifi scan`. -/
structure Network where
  ssid : String
  bssid : String
  rssi : Int
  channel : Int
  security : String
deriving DecidableEq, Repr

/-- The current connection in the output of `wifi current`. -/
structure ConnectionInfo where
  ssid : String
  bssid : String
  rssi : Int
  noise : Int
  channel : Int
  txRate : String
  security : String
  connected : Bool
deriving DecidableEq, Repr

/-- The zero value `ConnectionInfo{}`. -/
def emptyConnectionInfo : ConnectionInfo := ⟨"", "", 0, 0, 0, "", "", false⟩

/-- Decimal rendering of a non-negative number, for `strconv.Itoa`
(only reached under the `cur.Rate > 0` guard).  Fuel keeps the
recursion structural; `n` has fewer than `n + 1` decimal digits. -/
def natDecAux : Nat → Nat → List Char
  | _, 0 => []
  | 0, _ => []
  | fuel + 1, n =>
    natDecAux fuel (n / 10) ++ [Char.ofNat ('0'.toNat + n % 10)]

/-- `strconv.Itoa` for the positive rates the code prints. -/
def intToDec (v : Int) : String :=
  if v = 0 then "0" else ⟨natDecAux v.toNat.succ v.toNat⟩

/-- Embedding of `parseSystemProfilerScan` (wifi.go). -/
def parseSystemProfilerScan (d : Option SystemProfilerAirPort) : List Network :=
  match findWiFiInterface d with
  | none => []
  | some iface =>
    iface.otherNetworks.foldl (fun acc net =>
      let n : Network :=
        { ssid := net.name
          bssid := ""
          rssi := 0
          channel := parseChannelNumber net.channel
          security := cleanSecurityMode net.securityMode }
      let rn := parseSignalNoise net.signalNoise
      let n := if rn.1 ≠ 0 then { n with rssi := rn.1 } else n
      if n.ssid ≠ "" then acc ++ [n] else acc) []

/-- Embedding of `parseSystemProfilerCurrent` (wifi.go).  The Go guard
`iface.Status != "spairport_status_connected" || iface.CurrentNetwork == nil`
is written as two nested checks. -/
def parseSystemProfilerCurrent (d : Option SystemProfilerAirPort) : ConnectionInfo :=
  match findWiFiInterface d with
  | none => emptyConnectionInfo
  | some iface =>
    if iface.status ≠ "spairport_status_connected" then emptyConnectionInfo
    else
      match iface.currentNetwork with
      | none => emptyConnectionInfo
      | some cur =>
        let rn := parseSignalNoise cur.signalNoise
        { ssid := cur.name
          bssid := ""
          rssi := if rn.1 ≠ 0 then rn.1 else 0
          noise := if rn.2 ≠ 0 then rn.2 else 0
          channel := parseChannelNumber cur.channel
          txRate := if 0 < cur.rate then intToDec cur.rate ++ " Mbps" else ""
          security := cleanSecurityMode cur.securityMode
          connected := cur.name != "" }

/-! ### Proof-side helpers -/

/-- Running maximum of `g` over a list, seeded with `a`. -/
def listFoldMax {α β : Type} [LinearOrder β] (g : α → β) (a : β) (l : List α) : β :=
  l.foldl (fun acc x => max acc (g x)) a

/-- The occurrence count a candidate contributes to `selectLoop`. -/
def cntKey (counts : String → Nat) (m : MMatch) : Nat := counts (goToLower m.translation)

/-- Closed form of `selectLoop`: among the candidates at `best`, the
first one whose count reaches the running maximum, provided that
maximum beats the seed. -/
def selSpec (counts : String → Nat) (best : Rat)
    (l : List MMatch) (acc : String × Nat) : String × Nat :=
  if acc.2 < listFoldMax (cntKey counts) acc.2 (scoreFilter l best) then
    match (scoreFilter l best).find? (fun m =>
        decide (listFoldMax (cntKey counts) acc.2 (scoreFilter l best) ≤ cntKey counts m)) with
    | some m => (m.translation, listFoldMax (cntKey counts) acc.2 (scoreFilter l best))
    | none => acc
  else acc

/-! ## General list lemmas -/

theorem ite_lt_eq_max {β : Type} [LinearOrder β] (a b : β) :
    (if a < b then b else a) = max a b := by
  by_cases h : a < b
  · simp [h, max_eq_right h.le]
  · simp [h, max_eq_left (not_lt.mp h)]

theorem listFoldMax_cons {α β : Type} [LinearOrder β] (g : α → β) (a : β) (x : α)
    (l : List α) : listFoldMax g a (x :: l) = listFoldMax g (max a (g x)) l := rfl

theorem le_listFoldMax {α β : Type} [LinearOrder β] (g : α → β) (a : β) (l : List α) :
    a ≤ listFoldMax g a l := by
  induction l generalizing a with
  | nil => exact le_refl a
  | cons x l ih =>
    rw [listFoldMax_cons]
    exact le_trans (le_max_left a (g x)) (ih (max a (g x)))

theorem listFoldMax_mem_le {α β : Type} [LinearOrder β] (g : α → β) (a : β) (l : List α)
    (x : α) (hx : x ∈ l) : g x ≤ listFoldMax g a l := by
  induction l generalizing a with
  | nil => cases hx
  | cons y l ih =>
    rw [listFoldMax_cons]
    rcases List.mem_cons.mp hx with h | h
    · subst h
      exact le_trans (le_max_right a (g x)) (le_listFoldMax g _ l)
    · exact ih _ h

theorem listFoldMax_attained {α β : Type} [LinearOrder β] (g : α → β) (a : β)
    (l : List α) : listFoldMax g a l = a ∨ ∃ x ∈ l, listFoldMax g a l = g x := by
  induction l generalizing a with
  | nil => exact Or.inl rfl
  | cons x l ih =>
    rw [listFoldMax_cons]
    rcases ih (max a (g x)) with h | ⟨y, hy, h⟩
    · rcases max_choice a (g x) with hm | hm
      · exact Or.inl (h.trans hm)
      · exact Or.inr ⟨x, List.mem_cons_self x l, h.trans hm⟩
    · exact Or.inr ⟨y, List.mem_cons_of_mem x hy, h⟩

theorem find?_congr_mem {α : Type} {p q : α → Bool} :
    ∀ (l : List α), (∀ x ∈ l, p x = q x) → l.find? p = l.find? q := by
  intro l
  induction l with
  | nil => intro _; rfl
  | cons x l ih =>
    intro h
    rw [List.find?_cons, List.find?_cons, h x (List.mem_cons_self x l),
      ih (fun y hy => h y (List.mem_cons_of_mem x hy))]

theorem foldl_opt_append {γ : Type} (f : String → Option γ) :
    ∀ (l : List String) (acc : List γ),
    l.foldl (optStep f) acc = acc ++ l.filterMap f := by
  intro l
  induction l with
  | nil => intro acc; simp
  | cons x l ih =>
    intro acc
    rw [List.foldl_cons, List.filterMap_cons]
    cases hfx : f x with
    | none =>
      have hstep : optStep f acc x = acc := by simp [optStep, hfx]
      rw [hstep, ih acc]
    | some c =>
      have hstep : optStep f acc x = acc ++ [c] := by simp [optStep, hfx]
      rw [hstep, ih (acc ++ [c]), List.append_assoc]
      simp

/-! ## The selection heuristic: `selectLoop` in closed form -/

theorem selectLoop_eq_selSpec (counts : String → Nat) (best : Rat) :
    ∀ (l : List MMatch) (acc : String × Nat),
    selectLoop counts best l acc = selSpec counts best l acc := by
  intro l
  induction l with
  | nil =>
    intro acc
    simp [selectLoop, selSpec, listFoldMax, scoreFilter]
  | cons m l ih =>
    intro acc
    have hstep : selectLoop counts best (m :: l) acc =
        selectLoop counts best l
          (if m.matchScore = best then
            if acc.2 < cntKey counts m then (m.translation, cntKey counts m) else acc
          else acc) := rfl
    by_cases hs : m.matchScore = best
    · have hfil : scoreFilter (m :: l) best = m :: scoreFilter l best := by
        simp [scoreFilter, List.filter_cons_of_pos, hs]
      by_cases hc : acc.2 < cntKey counts m
      · -- the running answer is replaced by m
        have hacc : (if m.matchScore = best then
            if acc.2 < cntKey counts m then (m.translation, cntKey counts m) else acc
          else acc) = (m.translation, cntKey counts m) := by simp [hs, hc]
        rw [hstep, hacc, ih]
        set c := cntKey counts m with hcdef
        set M := listFoldMax (cntKey counts) c (scoreFilter l best) with hMdef
        have hcM : c ≤ M := le_listFoldMax _ _ _
        rcases lt_or_eq_of_le hcM with hlt | heq
        · -- c < M : the final answer comes from the tail
          obtain ⟨u, hu, hfind⟩ : ∃ u, u ∈ scoreFilter l best ∧
              (scoreFilter l best).find?
                (fun x => decide (M ≤ cntKey counts x)) = some u := by
            rcases listFoldMax_attained (cntKey counts) c (scoreFilter l best) with h | ⟨x, hx, h⟩
            · exact absurd (hMdef ▸ h)
                (by intro hh; rw [hh] at hlt; exact lt_irrefl _ hlt)
            · rcases hfind2 : (scoreFilter l best).find?
                  (fun x => decide (M ≤ cntKey counts x)) with _ | u
              · exfalso
                have := List.find?_eq_none.mp hfind2 x hx
                rw [← h] at this
                simp at this
              · exact ⟨u, List.mem_of_find?_eq_some hfind2, rfl⟩
          have hL : selSpec counts best l (m.translation, c) = (u.translation, M) := by
            simp only [selSpec, ← hMdef]
            rw [if_pos hlt, hfind]
          have hR : selSpec counts best (m :: l) acc = (u.translation, M) := by
            simp only [selSpec, hfil, listFoldMax_cons, max_eq_right hc.le, ← hcdef, ← hMdef]
            rw [if_pos (lt_trans hc hlt)]
            have hpm : ¬ ((fun x => decide (M ≤ cntKey counts x)) m = true) := by
              simp only [decide_eq_true_eq, not_le, ← hcdef]
              exact hlt
            rw [@List.find?_cons_of_neg MMatch (fun x => decide (M ≤ cntKey counts x)) m
              (scoreFilter l best) hpm, hfind]
          rw [hL, hR]
        · -- c = M : m itself is the final answer
          have hL : selSpec counts best l (m.translation, c) = (m.translation, c) := by
            simp only [selSpec, ← hMdef]
            rw [if_neg (by rw [← heq]; exact lt_irrefl c)]
          have hR : selSpec counts best (m :: l) acc = (m.translation, M) := by
            simp only [selSpec, hfil, listFoldMax_cons, max_eq_right hc.le, ← hcdef, ← hMdef]
            rw [if_pos (heq ▸ hc)]
            have hpm : ((fun x => decide (M ≤ cntKey counts x)) m = true) := by
              simp only [decide_eq_true_eq, ← hcdef, ← heq]
              exact le_refl c
            rw [@List.find?_cons_of_pos MMatch (fun x => decide (M ≤ cntKey counts x)) m
              (scoreFilter l best) hpm]
          rw [hL, hR, ← heq]
      · -- m does not beat the running answer
        have hacc : (if m.matchScore = best then
            if acc.2 < cntKey counts m then (m.translation, cntKey counts m) else acc
          else acc) = acc := by simp [hs, hc]
        rw [hstep, hacc, ih]
        set M := listFoldMax (cntKey counts) acc.2 (scoreFilter l best) with hMdef
        simp only [selSpec, hfil, listFoldMax_cons, max_eq_left (not_lt.mp hc), ← hMdef]
        by_cases hlt : acc.2 < M
        · rw [if_pos hlt, if_pos hlt]
          have hpm : ¬ ((fun x => decide (M ≤ cntKey counts x)) m = true) := by
            simp only [decide_eq_true_eq, not_le]
            exact lt_of_le_of_lt (not_lt.mp hc) hlt
          rw [@List.find?_cons_of_neg MMatch (fun x => decide (M ≤ cntKey counts x)) m
            (scoreFilter l best) hpm]
        · rw [if_neg hlt, if_neg hlt]
    · -- score differs: m is skipped entirely
      have hfil : scoreFilter (m :: l) best = scoreFilter l best := by
        simp [scoreFilter, List.filter_cons_of_neg, hs]
      have hacc : (if m.matchScore = best then
          if acc.2 < cntKey counts m then (m.translation, cntKey counts m) else acc
        else acc) = acc := by simp [hs]
      rw [hstep, hacc, ih]
      simp only [selSpec, hfil]

theorem bestScoreLoop_eq_listFoldMax (init : Rat) (rest : List MMatch) :
    bestScoreLoop init rest = listFoldMax MMatch.matchScore init rest := by
  unfold bestScoreLoop listFoldMax
  congr 1
  funext a m
  exact ite_lt_eq_max a m.matchScore

theorem bestScore_ub (m0 : MMatch) (rest : List MMatch) :
    ∀ m ∈ m0 :: rest, m.matchScore ≤ bestScoreLoop m0.matchScore rest := by
  intro m hm
  rw [bestScoreLoop_eq_listFoldMax]
  rcases List.mem_cons.mp hm with h | h
  · subst h; exact le_listFoldMax _ _ _
  · exact listFoldMax_mem_le _ _ _ _ h

theorem bestScore_attained (m0 : MMatch) (rest : List MMatch) :
    ∃ m ∈ m0 :: rest, m.matchScore = bestScoreLoop m0.matchScore rest := by
  rw [bestScoreLoop_eq_listFoldMax]
  rcases listFoldMax_attained MMatch.matchScore m0.matchScore rest with h | ⟨x, hx, h⟩
  · exact ⟨m0, List.mem_cons_self m0 rest, h.symm⟩
  · exact ⟨x, List.mem_cons_of_mem m0 hx, h.symm⟩

theorem countsAt_eq_occOf (ms : List MMatch) (B : Rat) (key : String) :
    countsAt ms B key = occOf (scoreFilter ms B) key := by
  rw [occOf, scoreFilter, List.countP_filter]
  rfl

/-- The bridge behind C1 and C2: on a non-empty candidate list,
`bestTranslation` returns the maximum score together with the text
selected by the spec-side rule `mostFrequentFirst`. -/
theorem bestTranslation_eq_mostFrequentFirst (ms : List MMatch) (hne : ms ≠ []) :
    ∃ t, mostFrequentFirst ms (bestTranslation ms).2 = some t ∧
      (bestTranslation ms).1 = t := by
  match ms, hne with
  | m0 :: rest, _ =>
    set B := bestScoreLoop m0.matchScore rest with hB
    have hsnd : (bestTranslation (m0 :: rest)).2 = B := rfl
    rw [hsnd]
    set F := scoreFilter (m0 :: rest) B with hF
    have hcounts : countsAt (m0 :: rest) B = occOf F := by
      funext key
      rw [countsAt_eq_occOf]
    obtain ⟨w, hwmem, hwB⟩ := bestScore_attained m0 rest
    have hwF : w ∈ F := by
      rw [hF, scoreFilter, List.mem_filter]
      exact ⟨hwmem, by simpa using hwB⟩
    have hpos : ∀ x ∈ F, 1 ≤ cntKey (occOf F) x := by
      intro x hx
      have : 0 < F.countP
          (fun m => decide (goToLower m.translation = goToLower x.translation)) := by
        rw [List.countP_pos_iff]
        exact ⟨x, hx, by simp⟩
      exact this
    set M := listFoldMax (cntKey (occOf F)) 0 F with hM
    have hMpos : 0 < M := lt_of_lt_of_le (hpos w hwF) (listFoldMax_mem_le _ _ _ _ hwF)
    have hfound : ∃ u, F.find? (fun m => decide (M ≤ cntKey (occOf F) m)) = some u := by
      rcases hfind : F.find? (fun m => decide (M ≤ cntKey (occOf F) m)) with _ | u
      · exfalso
        rcases listFoldMax_attained (cntKey (occOf F)) 0 F with h | ⟨x, hx, h⟩
        · rw [← hM] at h; omega
        · have := List.find?_eq_none.mp hfind x hx
          rw [← hM] at h
          rw [h] at this
          simp at this
      · exact ⟨u, rfl⟩
    obtain ⟨u, hu⟩ := hfound
    have hfst : (bestTranslation (m0 :: rest)).1 = u.translation := by
      show (selectLoop (countsAt (m0 :: rest) B) B (m0 :: rest) (m0.translation, 0)).1
        = u.translation
      rw [selectLoop_eq_selSpec, hcounts]
      unfold selSpec
      rw [← hF]
      simp only [← hM]
      rw [if_pos hMpos, hu]
    have htop : topCountOf F = M := rfl
    have hfindeq : F.find?
          (fun m => decide (occOf F (goToLower m.translation) = topCountOf F))
        = F.find? (fun m => decide (M ≤ cntKey (occOf F) m)) := by
      apply find?_congr_mem
      intro x hx
      have hle : cntKey (occOf F) x ≤ M := listFoldMax_mem_le _ _ _ _ hx
      show decide (occOf F (goToLower x.translation) = topCountOf F)
        = decide (M ≤ cntKey (occOf F) x)
      rw [htop]
      apply decide_eq_decide.mpr
      constructor
      · intro h
        show M ≤ occOf F (goToLower x.translation)
        rw [h]
      · intro h
        exact le_antisymm hle h
    refine ⟨u.translation, ?_, hfst⟩
    unfold mostFrequentFirst
    rw [← hF, hfindeq, hu]
    rfl

/-! ## C1–C3: the claims about `bestTranslation` -/

/-- C1: whenever exactly one candidate carries the maximum match score
(`u` bounds every score and is the only candidate at its own score),
`bestTranslation` returns that candidate's text with the maximum
score. -/
theorem bestTranslation_unique_max (ms : List MMatch) (u : MMatch)
    (hub : ∀ m ∈ ms, m.matchScore ≤ u.matchScore)
    (huniq : scoreFilter ms u.matchScore = [u]) :
    bestTranslation ms = (u.translation, u.matchScore) := by
  have hne : ms ≠ [] := by
    intro h
    rw [h] at huniq
    simp [scoreFilter] at huniq
  match ms, hne, hub, huniq with
  | m0 :: rest, _, hub, huniq =>
    have hu_mem : u ∈ m0 :: rest := by
      have : u ∈ scoreFilter (m0 :: rest) u.matchScore := by
        rw [huniq]
        exact List.mem_singleton_self u
      exact List.mem_of_mem_filter this
    have hB : bestScoreLoop m0.matchScore rest = u.matchScore := by
      apply le_antisymm
      · obtain ⟨w, hw, hwB⟩ := bestScore_attained m0 rest
        rw [← hwB]
        exact hub w hw
      · exact bestScore_ub m0 rest u hu_mem
    obtain ⟨t, hmf, hfst⟩ := bestTranslation_eq_mostFrequentFirst (m0 :: rest) (by simp)
    have hsnd : (bestTranslation (m0 :: rest)).2 = u.matchScore := hB
    rw [hsnd] at hmf
    have hval : mostFrequentFirst (m0 :: rest) u.matchScore = some u.translation := by
      unfold mostFrequentFirst
      rw [huniq]
      have h1 : occOf [u] (goToLower u.translation) = 1 := by simp [occOf]
      have h2 : topCountOf [u] = 1 := by
        simp [topCountOf, h1, listFoldMax]
      simp [List.find?_cons, h1, h2]
    rw [hval] at hmf
    have ht : t = u.translation := (Option.some.injEq _ _).mp hmf.symm
    have hpair : bestTranslation (m0 :: rest)
        = ((bestTranslation (m0 :: rest)).1, (bestTranslation (m0 :: rest)).2) := rfl
    rw [hpair, hfst, hsnd, ht]

/-- Witness for C1 at a concrete input with a unique maximum. -/
theorem bestTranslation_unique_max_witness :
    (∀ m ∈ [MMatch.mk "hola" 1, MMatch.mk "adios" 0], m.matchScore ≤ (1 : Rat)) ∧
    bestTranslation [MMatch.mk "hola" 1, MMatch.mk "adios" 0] = ("hola", 1) :=
  ⟨by decide,
    bestTranslation_unique_max _ (MMatch.mk "hola" 1) (by decide) (by decide)⟩

/-- C2: when the maximum score is shared, `bestTranslation` returns the
text selected by the spec-side most-frequent-then-first rule, paired
with the maximum score. -/
theorem bestTranslation_tied_max (ms : List MMatch) (M : Rat)
    (hub : ∀ m ∈ ms, m.matchScore ≤ M)
    (htied : 2 ≤ (scoreFilter ms M).length) :
    ∃ t, mostFrequentFirst ms M = some t ∧ bestTranslation ms = (t, M) := by
  have hne : ms ≠ [] := by
    intro h
    rw [h] at htied
    simp [scoreFilter] at htied
  match ms, hne, hub, htied with
  | m0 :: rest, _, hub, htied =>
    obtain ⟨w, hwF⟩ : ∃ w, w ∈ scoreFilter (m0 :: rest) M := by
      cases hF : scoreFilter (m0 :: rest) M with
      | nil => rw [hF] at htied; simp at htied
      | cons a l => exact ⟨a, hF ▸ List.mem_cons_self a l⟩
    have hwmem := List.mem_of_mem_filter hwF
    have hwM : w.matchScore = M := by
      have := (List.mem_filter.mp hwF).2
      simpa using this
    have hB : bestScoreLoop m0.matchScore rest = M := by
      apply le_antisymm
      · obtain ⟨x, hx, hxB⟩ := bestScore_attained m0 rest
        rw [← hxB]
        exact hub x hx
      · rw [← hwM]
        exact bestScore_ub m0 rest w hwmem
    obtain ⟨t, hmf, hfst⟩ := bestTranslation_eq_mostFrequentFirst (m0 :: rest) (by simp)
    have hsnd : (bestTranslation (m0 :: rest)).2 = M := hB
    rw [hsnd] at hmf
    refine ⟨t, hmf, ?_⟩
    have hpair : bestTranslation (m0 :: rest)
        = ((bestTranslation (m0 :: rest)).1, (bestTranslation (m0 :: rest)).2) := rfl
    rw [hpair, hfst, hsnd]

/-- Witness for C2 at a concrete three-way tie: `"Si"` occurs twice
(case-insensitively) and wins; it is also the earlier of the equally
frequent spellings. -/
theorem bestTranslation_tied_max_witness :
    mostFrequentFirst [MMatch.mk "Si" 1, MMatch.mk "no" 1, MMatch.mk "si" 1] 1
      = some "Si" ∧
    bestTranslation [MMatch.mk "Si" 1, MMatch.mk "no" 1, MMatch.mk "si" 1]
      = ("Si", 1) := by
  obtain ⟨t, h1, h2⟩ := bestTranslation_tied_max
    [MMatch.mk "Si" 1, MMatch.mk "no" 1, MMatch.mk "si" 1] 1 (by decide) (by decide)
  have hts : some t = some "Si" := by
    rw [← h1]
    decide
  injection hts with ht
  subst ht
  exact ⟨h1, h2⟩

/-- C3: the empty candidate list yields the empty text and zero
score. -/
theorem bestTranslation_empty : bestTranslation [] = ("", 0) := rfl


/-! ## C4: malformed records are dropped, well-formed ones kept -/

theorem parseGroupContactsLoop_zero :
    ∀ (items : List String) (count : Int),
    parseGroupContactsLoop 0 items count = items.filterMap parseGroupContactItem := by
  intro items
  induction items with
  | nil => intro count; rfl
  | cons item rest ih =>
    intro count
    unfold parseGroupContactsLoop
    rw [if_neg (by simp)]
    rw [List.filterMap_cons]
    cases h : parseGroupContactItem item with
    | none =>
      simp only [h]
      exact ih count
    | some c =>
      simp only [h]
      rw [ih (count + 1)]

/-- C4: in each of the three record loops (list/search contacts, group
listing, group membership), a record whose `"|||"` split has fewer than
the minimum number of fields (4 for contact summaries, 2 for groups)
parses to `none`, and the loop output is exactly the parses of the
well-formed records, in order — the total `Option`-valued parsers show
no error is ever produced. -/
theorem malformed_records_dropped :
    (∀ s, parseContacts s = (goSplit ":::" s).filterMap parseContactItem) ∧
    (∀ item, (goSplit "|||" item).length < 4 → parseContactItem item = none) ∧
    (∀ s, parseGroups s = (goSplit ":::" s).filterMap parseGroupItem) ∧
    (∀ item, (goSplit "|||" item).length < 2 → parseGroupItem item = none) ∧
    (∀ s, parseGroupContacts 0 s = (goSplit ":::" s).filterMap parseGroupContactItem) ∧
    (∀ item, (goSplit "|||" item).length < 4 → parseGroupContactItem item = none) := by
  refine ⟨?_, ?_, ?_, ?_, ?_, ?_⟩
  · intro s
    unfold parseContacts
    rw [foldl_opt_append]
    rfl
  · intro item h
    unfold parseContactItem
    rw [if_neg (by omega)]
  · intro s
    unfold parseGroups
    rw [foldl_opt_append]
    rfl
  · intro item h
    unfold parseGroupItem
    rw [if_neg (by omega)]
  · intro s
    unfold parseGroupContacts
    rw [parseGroupContactsLoop_zero]
  · intro item h
    unfold parseGroupContactItem
    rw [if_neg (by omega)]

/-- Witness for C4: a 1-field record is dropped from both loops while
the surrounding well-formed records survive. -/
theorem malformed_records_dropped_witness :
    (goSplit "|||" "bad").length < 4 ∧ parseContactItem "bad" = none ∧
    (goSplit "|||" "solo").length < 2 ∧ parseGroupItem "solo" = none ∧
    parseContacts "a|||b|||c|||d:::bad" = [⟨"a", "b", "c", "d"⟩] := by
  refine ⟨by decide, malformed_records_dropped.2.1 "bad" (by decide), by decide,
    malformed_records_dropped.2.2.2.1 "solo" (by decide), ?_⟩
  rw [malformed_records_dropped.1 "a|||b|||c|||d:::bad"]
  decide

/-! ## C5: the `"null"` normalization touches only the company field -/

/-- Counterexample to C5 as stated: in the record
`"x|||null|||null|||null"` every optional field is the literal
`"null"`, yet the parsed summary keeps `"null"` in the email and phone
fields — only the company is normalized to the empty string. -/
theorem contact_null_counterexample :
    parseContactItem "x|||null|||null|||null" = some ⟨"x", "null", "null", ""⟩ ∧
    (parseContactItem "x|||null|||null|||null").map ContactSummary.email ≠ some "" ∧
    (parseContactItem "x|||null|||null|||null").map ContactSummary.phone ≠ some "" :=
  ⟨by decide, by decide, by decide⟩

theorem nullNorm_spec (x : ContactSummary) :
    (nullNorm x).name = x.name ∧ (nullNorm x).email = x.email ∧
    (nullNorm x).phone = x.phone ∧ (nullNorm x).company ≠ "null" ∧
    (x.company = "null" → (nullNorm x).company = "") ∧
    (x.company ≠ "null" → (nullNorm x).company = x.company) := by
  unfold nullNorm
  by_cases h : x.company = "null"
  · rw [if_pos h]
    refine ⟨rfl, rfl, rfl, ?_, fun _ => rfl, fun hn => absurd h hn⟩
    show ("" : String) ≠ "null"
    decide
  · rw [if_neg h]
    exact ⟨rfl, rfl, rfl, h, fun hc => absurd hc h, fun _ => rfl⟩

/-- C5 as amended: for every successfully parsed record, the company
field is never the literal `"null"` (a `"null"` company is normalized
to empty), while the email and phone fields are returned as trimmed
verbatim — no `"null"` normalization is applied to them. -/
theorem contact_null_company_only (item : String) (c : ContactSummary)
    (hp : parseContactItem item = some c) :
    c.company ≠ "null" ∧
    (goTrimSpace ((goSplit "|||" item).getD 3 "") = "null" → c.company = "") ∧
    c.email = goTrimSpace ((goSplit "|||" item).getD 1 "") ∧
    c.phone = goTrimSpace ((goSplit "|||" item).getD 2 "") := by
  unfold parseContactItem at hp
  by_cases hlen : 4 ≤ (goSplit "|||" item).length
  · rw [if_pos hlen] at hp
    injection hp with h
    rw [← h]
    exact ⟨(nullNorm_spec _).2.2.2.1,
      fun hnull => (nullNorm_spec _).2.2.2.2.1 hnull,
      (nullNorm_spec _).2.1, (nullNorm_spec _).2.2.1⟩
  · rw [if_neg hlen] at hp
    cases hp

/-- Witness for C5's amended statement at a concrete record. -/
theorem contact_null_company_only_witness :
    ((⟨"a", "null", "null", ""⟩ : ContactSummary).company ≠ "null") ∧
    (goTrimSpace ((goSplit "|||" "a|||null|||null|||null").getD 3 "") = "null" →
      (⟨"a", "null", "null", ""⟩ : ContactSummary).company = "") ∧
    (⟨"a", "null", "null", ""⟩ : ContactSummary).email
      = goTrimSpace ((goSplit "|||" "a|||null|||null|||null").getD 1 "") ∧
    (⟨"a", "null", "null", ""⟩ : ContactSummary).phone
      = goTrimSpace ((goSplit "|||" "a|||null|||null|||null").getD 2 "") :=
  contact_null_company_only "a|||null|||null|||null" ⟨"a", "null", "null", ""⟩ (by decide)

/-! ## C6: `cleanLabel` strips the sentinel wrapper -/

theorem trimPreL_append (p x : List Char) : trimPreL p (p ++ x) = x := by
  rw [trimPreL, if_pos (List.isPrefixOf_iff_prefix.mpr (List.prefix_append p x)),
    List.drop_left]

theorem trimSufL_append (q x : List Char) : trimSufL q (x ++ q) = x := by
  rw [trimSufL, if_pos (List.isSuffixOf_iff_suffix.mpr (List.suffix_append x q)),
    List.length_append, Nat.add_sub_cancel, List.take_left]

/-- C6: every label wrapped as `"_$!<" ++ s ++ ">!$_"` cleans to `s`
(in particular the wrapped form of `"Home"` yields `"Home"`), and a
label carrying neither the sentinel prefix nor the sentinel suffix is
returned unchanged. -/
theorem cleanLabel_spec (s : String) :
    cleanLabel ("_$!<" ++ s ++ ">!$_") = s ∧
    (("_$!<" : String).data.isPrefixOf s.data = false →
      ((">!$_" : String)).data.isSuffixOf s.data = false →
      cleanLabel s = s) := by
  constructor
  · show (⟨trimSufL (">!$_" : String).data
      (trimPreL ("_$!<" : String).data ("_$!<" ++ s ++ ">!$_").data)⟩ : String) = s
    have hd : ("_$!<" ++ s ++ ">!$_").data
        = ("_$!<" : String).data ++ (s.data ++ (">!$_" : String).data) := by
      rw [String.data_append, String.data_append, List.append_assoc]
    rw [hd, trimPreL_append, trimSufL_append]
  · intro hp hq
    show (⟨trimSufL (">!$_" : String).data
      (trimPreL ("_$!<" : String).data s.data)⟩ : String) = s
    rw [trimPreL, if_neg (by rw [hp]; exact Bool.false_ne_true)]
    rw [trimSufL, if_neg (by rw [hq]; exact Bool.false_ne_true)]

/-- Witness for C6: the wrapped `"Home"` round-trips, and the bare
label `"mobile"` is untouched. -/
theorem cleanLabel_spec_witness :
    cleanLabel ("_$!<" ++ "Home" ++ ">!$_") = "Home" ∧
    cleanLabel "mobile" = "mobile" :=
  ⟨(cleanLabel_spec "Home").1, (cleanLabel_spec "mobile").2 (by decide) (by decide)⟩


/-! ## C8: `cleanSecurityMode` -/

/-- Counterexample to C8 as stated: the claimed input
`"mode_wpa2_personal"` does not carry the full stripped prefix
`"spairport_security_mode_"`, so the code only hyphenates it. -/
theorem cleanSecurityMode_counterexample :
    cleanSecurityMode "mode_wpa2_personal" = "mode-wpa2-personal" ∧
    ("mode-wpa2-personal" : String) ≠ "wpa2-personal" :=
  ⟨by decide, by decide⟩

/-- C8 as amended: the stripped prefix is the full
`"spairport_security_mode_"`; the input
`"spairport_security_mode_wpa2_personal"` yields `"wpa2-personal"`,
and in general prefixing any suffix with it strips the prefix and
hyphenates the underscores of the suffix. -/
theorem cleanSecurityMode_amended :
    cleanSecurityMode "spairport_security_mode_wpa2_personal" = "wpa2-personal" ∧
    ∀ s, cleanSecurityMode ("spairport_security_mode_" ++ s)
      = underscoreToHyphen s := by
  refine ⟨by decide, ?_⟩
  intro s
  have hne : ("spairport_security_mode_" ++ s) ≠ "" := by
    intro h
    have hd := congrArg String.data h
    rw [String.data_append] at hd
    have h1 := (List.append_eq_nil.mp hd).1
    exact absurd h1 (by decide)
  unfold cleanSecurityMode
  rw [if_neg hne]
  congr 1
  show (⟨trimPreL ("spairport_security_mode_" : String).data
    ("spairport_security_mode_" ++ s).data⟩ : String) = s
  rw [String.data_append, trimPreL_append]

/-! ## C9: `runOsascript` error classification -/

/-- C9: on a failed run, the deadline-exceeded case yields exactly the
fixed timeout message — independent of the captured stderr — while
within the deadline a nonzero exit yields the trimmed stderr, falling
back to the process error text only when the raw stderr is empty. -/
theorem runOsascript_error_classification (r : ProcRun) (hf : r.failed = true) :
    (r.deadlineExceeded = true →
      runOsascriptResult r
        = Except.error ("osascript timed out after " ++ appleScriptTimeoutStr)) ∧
    (r.deadlineExceeded = false → r.stderr ≠ "" →
      runOsascriptResult r = Except.error (goTrimSpace r.stderr)) ∧
    (r.deadlineExceeded = false → r.stderr = "" →
      runOsascriptResult r = Except.error (goTrimSpace r.errText)) := by
  refine ⟨?_, ?_, ?_⟩
  · intro hd
    simp [runOsascriptResult, hf, hd]
  · intro hd hs
    simp [runOsascriptResult, hf, hd, hs]
  · intro hd hs
    simp [runOsascriptResult, hf, hd, hs]

/-- Witness for C9: a timed-out run and a nonzero exit with stderr. -/
theorem runOsascript_error_classification_witness :
    runOsascriptResult ⟨"", "stale output", true, true, "signal: killed"⟩
      = Except.error ("osascript timed out after " ++ appleScriptTimeoutStr) ∧
    runOsascriptResult ⟨"", " boom ", true, false, "exit status 1"⟩
      = Except.error (goTrimSpace " boom ") :=
  ⟨(runOsascript_error_classification ⟨"", "stale output", true, true, "signal: killed"⟩
      rfl).1 rfl,
   (runOsascript_error_classification ⟨"", " boom ", true, false, "exit status 1"⟩
      rfl).2.1 rfl (by decide)⟩

/-! ## C10: `findWiFiInterface` selection -/

theorem findEn0_eq_find : ∀ l : List SPAirPortInterface,
    findEn0 l = l.find? (fun i => decide (i.name = "en0")) := by
  intro l
  induction l with
  | nil => rfl
  | cons i rest ih =>
    unfold findEn0
    by_cases h : i.name = "en0"
    · rw [if_pos h, List.find?_cons_of_pos _ (by simp [h])]
    · rw [if_neg h, List.find?_cons_of_neg _ (by simp [h]), ih]

theorem findWiFiInterface_cons (sp : SystemProfilerAirPort) (e : SPEntry)
    (es : List SPEntry) (h : sp.SPAirPortDataType = e :: es) :
    findWiFiInterface (some sp)
      = (e.interfaces.find? (fun i => decide (i.name = "en0"))).orElse
          (fun _ => e.interfaces.head?) := by
  show (match sp.SPAirPortDataType with
    | [] => none
    | e :: _ =>
      match findEn0 e.interfaces with
      | some i => some i
      | none => e.interfaces.head?)
    = (e.interfaces.find? (fun i => decide (i.name = "en0"))).orElse
        (fun _ => e.interfaces.head?)
  rw [h]
  show (match findEn0 e.interfaces with
    | some i => some i
    | none => e.interfaces.head?)
    = (e.interfaces.find? (fun i => decide (i.name = "en0"))).orElse
        (fun _ => e.interfaces.head?)
  rw [findEn0_eq_find]
  cases hf : e.interfaces.find? (fun i => decide (i.name = "en0")) with
  | some i => rfl
  | none => rfl

/-- C10: the decoded payload is selected through one rule — the first
interface named `"en0"` of the first `SPAirPortDataType` entry, else
the first interface, else nothing; the result is `none` exactly on a
decode failure, an empty `SPAirPortDataType` array, or an empty
interface list; and both downstream parsers depend on the payload only
through this selection. -/
theorem findWiFiInterface_selection :
    (findWiFiInterface none = none) ∧
    (∀ sp, sp.SPAirPortDataType = [] → findWiFiInterface (some sp) = none) ∧
    (∀ sp e es, sp.SPAirPortDataType = e :: es →
      findWiFiInterface (some sp)
        = (e.interfaces.find? (fun i => decide (i.name = "en0"))).orElse
            (fun _ => e.interfaces.head?)) ∧
    (∀ d, findWiFiInterface d = none ↔
      (d = none ∨ ∃ sp, d = some sp ∧ (sp.SPAirPortDataType = [] ∨
        ∃ e es, sp.SPAirPortDataType = e :: es ∧ e.interfaces = []))) ∧
    (∀ d₁ d₂, findWiFiInterface d₁ = findWiFiInterface d₂ →
      parseSystemProfilerScan d₁ = parseSystemProfilerScan d₂ ∧
      parseSystemProfilerCurrent d₁ = parseSystemProfilerCurrent d₂) := by
  refine ⟨rfl, ?_, findWiFiInterface_cons, ?_, ?_⟩
  · intro sp h
    show (match sp.SPAirPortDataType with
      | [] => none
      | e :: _ =>
        match findEn0 e.interfaces with
        | some i => some i
        | none => e.interfaces.head?) = none
    rw [h]
  · intro d
    constructor
    · intro h
      cases d with
      | none => exact Or.inl rfl
      | some sp =>
        refine Or.inr ⟨sp, rfl, ?_⟩
        rcases hdt : sp.SPAirPortDataType with _ | ⟨e, es⟩
        · exact Or.inl rfl
        · refine Or.inr ⟨e, es, rfl, ?_⟩
          rw [findWiFiInterface_cons sp e es hdt] at h
          cases hf : e.interfaces.find? (fun i => decide (i.name = "en0")) with
          | some i =>
            rw [hf] at h
            simp [Option.orElse] at h
          | none =>
            rw [hf] at h
            simp [Option.orElse] at h
            exact h
    · intro h
      rcases h with rfl | ⟨sp, rfl, h2⟩
      · rfl
      · rcases h2 with hnil | ⟨e, es, hdt, hint⟩
        · show (match sp.SPAirPortDataType with
            | [] => none
            | e :: _ =>
              match findEn0 e.interfaces with
              | some i => some i
              | none => e.interfaces.head?) = none
          rw [hnil]
        · rw [findWiFiInterface_cons sp e es hdt, hint]
          rfl
  · intro d1 d2 h
    constructor
    · unfold parseSystemProfilerScan
      rw [h]
    · unfold parseSystemProfilerCurrent
      rw [h]

/-- Witness for C10: `"en0"` is picked over an earlier `"awdl0"`. -/
theorem findWiFiInterface_selection_witness :
    findWiFiInterface
      (some ⟨[⟨[⟨"awdl0", "", none, [], ""⟩, ⟨"en0", "c", none, [], ""⟩]⟩]⟩)
      = some ⟨"en0", "c", none, [], ""⟩ := by
  rw [findWiFiInterface_selection.2.2.1 _
    ⟨[⟨"awdl0", "", none, [], ""⟩, ⟨"en0", "c", none, [], ""⟩]⟩ [] rfl]
  decide


/-! ## C7: `parseSignalNoise` -/

theorem space_not_digit (c : Char) (h : isSpaceRE c = true) : c.isDigit = false := by
  simp only [isSpaceRE, Bool.or_eq_true, decide_eq_true_eq] at h
  rcases h with ((((h | h) | h) | h) | h) <;> subst h <;> rfl

theorem digit_not_space (c : Char) (h : c.isDigit = true) : isSpaceRE c = false := by
  cases hs : isSpaceRE c with
  | false => rfl
  | true => rw [space_not_digit c hs] at h; cases h

theorem digit_ne_dash (c : Char) (h : c.isDigit = true) : c ≠ '-' := by
  intro hc
  subst hc
  cases h

theorem parseNeg_decomp :
    ∀ cs : List Char, cs = (if (parseNeg cs).1 then ['-'] else []) ++ (parseNeg cs).2 := by
  intro cs
  cases cs with
  | nil => rfl
  | cons c r =>
    by_cases hc : c = '-'
    · subst hc
      simp [parseNeg]
    · simp [parseNeg, hc]

theorem dropLit_append (lit cs : List Char) : dropLit lit (lit ++ cs) = some cs := by
  rw [dropLit, if_pos (List.isPrefixOf_iff_prefix.mpr (List.prefix_append lit cs)),
    List.drop_left]

theorem dropLit_some (lit cs rest : List Char) (h : dropLit lit cs = some rest) :
    cs = lit ++ rest := by
  rw [dropLit] at h
  by_cases hp : lit.isPrefixOf cs
  · rw [if_pos hp] at h
    injection h with h2
    obtain ⟨t, ht⟩ := List.isPrefixOf_iff_prefix.mp hp
    rw [← ht, List.drop_left] at h2
    rw [← ht, h2]
  · rw [if_neg hp] at h
    cases h

theorem parseNumDBm_complete (neg : Bool) (d w rest : List Char)
    (hd : d ≠ []) (hdd : ∀ c ∈ d, c.isDigit = true)
    (hw : ∀ c ∈ w, isSpaceRE c = true) :
    parseNumDBm ((if neg then ['-'] else []) ++ (d ++ (w ++ ('d' :: 'B' :: 'm' :: rest))))
      = some (neg, d, rest) := by
  have hneg : parseNeg ((if neg then ['-'] else []) ++ (d ++ (w ++ ('d' :: 'B' :: 'm' :: rest))))
      = (neg, d ++ (w ++ ('d' :: 'B' :: 'm' :: rest))) := by
    cases neg with
    | true => simp [parseNeg]
    | false =>
      obtain ⟨c, d', rfl⟩ := List.exists_cons_of_ne_nil hd
      have hcd : c.isDigit = true := hdd c (List.mem_cons_self c d')
      simp [parseNeg, digit_ne_dash c hcd]
  have htwX : (w ++ ('d' :: 'B' :: 'm' :: rest)).takeWhile Char.isDigit = [] := by
    cases w with
    | nil =>
      rw [List.nil_append]
      exact List.takeWhile_cons_of_neg (by decide)
    | cons c w' =>
      rw [List.cons_append]
      exact List.takeWhile_cons_of_neg
        (by simp [space_not_digit c (hw c (List.mem_cons_self c w'))])
  have hdwX : (w ++ ('d' :: 'B' :: 'm' :: rest)).dropWhile Char.isDigit
      = w ++ ('d' :: 'B' :: 'm' :: rest) := by
    cases w with
    | nil =>
      rw [List.nil_append]
      exact List.dropWhile_cons_of_neg (by decide)
    | cons c w' =>
      rw [List.cons_append]
      rw [List.dropWhile_cons_of_neg
        (by simp [space_not_digit c (hw c (List.mem_cons_self c w'))])]
  have htw : (d ++ (w ++ ('d' :: 'B' :: 'm' :: rest))).takeWhile Char.isDigit = d := by
    rw [List.takeWhile_append_of_pos hdd, htwX, List.append_nil]
  have hdw : (d ++ (w ++ ('d' :: 'B' :: 'm' :: rest))).dropWhile Char.isDigit
      = w ++ ('d' :: 'B' :: 'm' :: rest) := by
    rw [List.dropWhile_append_of_pos hdd, hdwX]
  have hsp : (w ++ ('d' :: 'B' :: 'm' :: rest)).dropWhile isSpaceRE
      = 'd' :: 'B' :: 'm' :: rest := by
    rw [List.dropWhile_append_of_pos hw]
    exact List.dropWhile_cons_of_neg (by decide)
  have hdl : dropLit ['d', 'B', 'm'] ('d' :: 'B' :: 'm' :: rest) = some rest :=
    dropLit_append ['d', 'B', 'm'] rest
  simp only [parseNumDBm, hneg, htw, hdw, hsp, hdl]
  simp [hd]


theorem parseNumDBm_sound (cs : List Char) (neg : Bool) (d rest : List Char)
    (h : parseNumDBm cs = some (neg, d, rest)) :
    ∃ w, cs = (if neg then ['-'] else []) ++ (d ++ (w ++ ('d' :: 'B' :: 'm' :: rest)))
      ∧ d ≠ [] ∧ (∀ c ∈ d, c.isDigit = true) ∧ (∀ c ∈ w, isSpaceRE c = true) := by
  unfold parseNumDBm at h
  by_cases h1 : (parseNeg cs).2.takeWhile Char.isDigit = []
  · rw [if_pos h1] at h
    cases h
  · rw [if_neg h1] at h
    cases hdl : dropLit ['d', 'B', 'm']
        (((parseNeg cs).2.dropWhile Char.isDigit).dropWhile isSpaceRE) with
    | none =>
      rw [hdl] at h
      cases h
    | some cs3 =>
      rw [hdl] at h
      injection h with h2
      have hne : (parseNeg cs).1 = neg := congrArg Prod.fst h2
      have hdd : (parseNeg cs).2.takeWhile Char.isDigit = d :=
        congrArg (fun t => t.2.1) h2
      have hcs3 : cs3 = rest := congrArg (fun t => t.2.2) h2
      refine ⟨((parseNeg cs).2.dropWhile Char.isDigit).takeWhile isSpaceRE,
        ?_, ?_, ?_, ?_⟩
      · have hsplit : ((parseNeg cs).2.dropWhile Char.isDigit).dropWhile isSpaceRE
            = ['d', 'B', 'm'] ++ rest := by
          rw [← hcs3]
          exact dropLit_some _ _ _ hdl
        conv_lhs => rw [parseNeg_decomp cs]
        rw [hne]
        congr 1
        conv_lhs => rw [← List.takeWhile_append_dropWhile Char.isDigit (parseNeg cs).2]
        rw [hdd]
        congr 1
        conv_lhs => rw [← List.takeWhile_append_dropWhile isSpaceRE
          ((parseNeg cs).2.dropWhile Char.isDigit)]
        rw [hsplit]
        rfl
      · rw [hdd] at h1
        exact h1
      · intro c hc
        rw [← hdd] at hc
        exact List.mem_takeWhile_imp hc
      · intro c hc
        exact List.mem_takeWhile_imp hc


theorem parseSNAt_complete (cs : List Char) (r n : Int) (h : SNShapeAt cs r n) :
    parseSNAt cs = some (clampInt64 r, clampInt64 n) := by
  obtain ⟨neg1, d1, w1, w2, w3, neg2, d2, w4, rest, hcs, hd1ne, hd1, hd2ne, hd2,
    hw1, hw2, hw3, hw4, hr, hn⟩ := h
  subst hr
  subst hn
  have hcs2 : cs = (if neg1 then ['-'] else []) ++ (d1 ++ (w1 ++ ('d' :: 'B' :: 'm' ::
      (w2 ++ ('/' :: (w3 ++ ((if neg2 then ['-'] else []) ++ (d2 ++ (w4 ++
        ('d' :: 'B' :: 'm' :: rest)))))))))) := by
    rw [hcs]
    simp [List.append_assoc]
  have h1 := parseNumDBm_complete neg1 d1 w1
    (w2 ++ ('/' :: (w3 ++ ((if neg2 then ['-'] else []) ++ (d2 ++ (w4 ++
      ('d' :: 'B' :: 'm' :: rest))))))) hd1ne hd1 hw1
  rw [← hcs2] at h1
  have hslash : (w2 ++ ('/' :: (w3 ++ ((if neg2 then ['-'] else []) ++ (d2 ++ (w4 ++
      ('d' :: 'B' :: 'm' :: rest))))))).dropWhile isSpaceRE
      = '/' :: (w3 ++ ((if neg2 then ['-'] else []) ++ (d2 ++ (w4 ++
        ('d' :: 'B' :: 'm' :: rest))))) := by
    rw [List.dropWhile_append_of_pos hw2]
    exact List.dropWhile_cons_of_neg (by decide)
  have hZdrop : (((if neg2 then ['-'] else []) ++ (d2 ++ (w4 ++
      ('d' :: 'B' :: 'm' :: rest))))).dropWhile isSpaceRE
      = (if neg2 then ['-'] else []) ++ (d2 ++ (w4 ++ ('d' :: 'B' :: 'm' :: rest))) := by
    cases neg2 with
    | true =>
      rw [if_pos rfl, List.singleton_append]
      exact List.dropWhile_cons_of_neg (by decide)
    | false =>
      rw [if_neg (by simp), List.nil_append]
      obtain ⟨c, d2', rfl⟩ := List.exists_cons_of_ne_nil hd2ne
      rw [List.cons_append]
      exact List.dropWhile_cons_of_neg
        (by simp [digit_not_space c (hd2 c (List.mem_cons_self c d2'))])
  have hafter : (w3 ++ ((if neg2 then ['-'] else []) ++ (d2 ++ (w4 ++
      ('d' :: 'B' :: 'm' :: rest))))).dropWhile isSpaceRE
      = (if neg2 then ['-'] else []) ++ (d2 ++ (w4 ++ ('d' :: 'B' :: 'm' :: rest))) := by
    rw [List.dropWhile_append_of_pos hw3, hZdrop]
  have h2 := parseNumDBm_complete neg2 d2 w4 rest hd2ne hd2 hw4
  simp only [parseSNAt, h1, hslash, hafter, h2]
  simp [atoiClamp]

theorem parseSNAt_sound (cs : List Char) (p : Int × Int) (h : parseSNAt cs = some p) :
    ∃ r n, SNShapeAt cs r n ∧ p = (clampInt64 r, clampInt64 n) := by
  unfold parseSNAt at h
  cases h1 : parseNumDBm cs with
  | none =>
    rw [h1] at h
    cases h
  | some tri =>
    obtain ⟨neg1, d1, cs3⟩ := tri
    simp only [h1] at h
    cases hsplit : cs3.dropWhile isSpaceRE with
    | nil =>
      simp only [hsplit] at h
      exact Option.noConfusion h
    | cons c cs5 =>
      simp only [hsplit] at h
      by_cases hc : c = '/'
      · rw [if_pos hc] at h
        subst hc
        cases h2 : parseNumDBm (cs5.dropWhile isSpaceRE) with
        | none =>
          rw [h2] at h
          exact Option.noConfusion h
        | some tri2 =>
          obtain ⟨neg2, d2, X⟩ := tri2
          simp only [h2] at h
          obtain ⟨w1, hcs, hd1ne, hd1, hw1⟩ := parseNumDBm_sound cs neg1 d1 cs3 h1
          obtain ⟨w4, hcs5, hd2ne, hd2, hw4⟩ :=
            parseNumDBm_sound (cs5.dropWhile isSpaceRE) neg2 d2 X h2
          obtain ⟨w2, hw2sp, hcs3⟩ :
              ∃ w2, (∀ x ∈ w2, isSpaceRE x = true) ∧ cs3 = w2 ++ ('/' :: cs5) := by
            refine ⟨cs3.takeWhile isSpaceRE,
              fun x hx => List.mem_takeWhile_imp hx, ?_⟩
            conv_lhs => rw [← List.takeWhile_append_dropWhile isSpaceRE cs3]
            rw [hsplit]
          obtain ⟨w3, hw3sp, hcs5d⟩ :
              ∃ w3, (∀ x ∈ w3, isSpaceRE x = true)
                ∧ cs5 = w3 ++ (cs5.dropWhile isSpaceRE) := by
            refine ⟨cs5.takeWhile isSpaceRE,
              fun x hx => List.mem_takeWhile_imp hx,
              (List.takeWhile_append_dropWhile isSpaceRE cs5).symm⟩
          rw [hcs5] at hcs5d
          refine ⟨intVal neg1 d1, intVal neg2 d2, ?_, ?_⟩
          · refine ⟨neg1, d1, w1, w2, w3, neg2, d2, w4, X, ?_, hd1ne, hd1, hd2ne,
              hd2, hw1, hw2sp, hw3sp, hw4, rfl, rfl⟩
            rw [hcs, hcs3, hcs5d]
            simp [List.append_assoc]
          · injection h with h3
            rw [← h3]
            rfl
      · rw [if_neg hc] at h
        exact Option.noConfusion h

theorem parseSNAt_nil : parseSNAt [] = none := rfl

theorem findSN_of_head (cs : List Char) (p : Int × Int) (h : parseSNAt cs = some p) :
    findSN cs = some p := by
  cases cs with
  | nil =>
    rw [parseSNAt_nil] at h
    cases h
  | cons c t =>
    unfold findSN
    rw [h]

theorem findSN_none (cs : List Char) (h : ∀ i, parseSNAt (cs.drop i) = none) :
    findSN cs = none := by
  induction cs with
  | nil => rfl
  | cons c t ih =>
    unfold findSN
    have h0 : parseSNAt (c :: t) = none := h 0
    rw [h0]
    show findSN t = none
    exact ih (fun i => h (i + 1))

theorem SNShapeAt_ne_nil (r n : Int) (h : SNShapeAt [] r n) : False := by
  obtain ⟨neg1, d1, w1, w2, w3, neg2, d2, w4, rest, hcs, hrest⟩ := h
  have h2 := hcs.symm
  simp [List.append_eq_nil] at h2

/-- C7 as amended: the two examples hold; a string that begins with the
`"<n> dBm / <m> dBm"` pattern yields the two signed integers clamped to
the `int64` range of `strconv.Atoi` (so exactly the two integers
whenever they fit in `int64`); and a string containing no occurrence of
the pattern yields `(0, 0)`. -/
theorem parseSignalNoise_spec :
    parseSignalNoise "-48 dBm / -92 dBm" = (-48, -92) ∧
    parseSignalNoise "" = (0, 0) ∧
    (∀ s r n, SNShapeAt s.data r n →
      parseSignalNoise s = (clampInt64 r, clampInt64 n)) ∧
    (∀ s, (∀ i r n, ¬ SNShapeAt (s.data.drop i) r n) →
      parseSignalNoise s = (0, 0)) := by
  refine ⟨by decide, by decide, ?_, ?_⟩
  · intro s r n h
    have hda : s.data ≠ [] := by
      intro hnil
      rw [hnil] at h
      exact SNShapeAt_ne_nil r n h
    have hsne : s ≠ "" := by
      intro he
      rw [he] at hda
      exact hda rfl
    unfold parseSignalNoise
    rw [if_neg hsne,
      findSN_of_head s.data (clampInt64 r, clampInt64 n) (parseSNAt_complete s.data r n h)]
  · intro s h
    by_cases hse : s = ""
    · rw [hse]
      decide
    · unfold parseSignalNoise
      rw [if_neg hse]
      have hnone : ∀ i, parseSNAt (s.data.drop i) = none := by
        intro i
        cases hp : parseSNAt (s.data.drop i) with
        | none => rfl
        | some p =>
          obtain ⟨r, n, hsh, _⟩ := parseSNAt_sound _ p hp
          exact absurd hsh (h i r n)
      rw [findSN_none s.data hnone]

/-- Counterexample to C7 as stated: a matching string whose first
number does not fit in `int64` is clamped by `strconv.Atoi` to
`math.MaxInt64`, so the code does not return the two written
integers. -/
theorem parseSignalNoise_overflow_counterexample :
    SNShapeAt ("99999999999999999999 dBm / -92 dBm" : String).data
      99999999999999999999 (-92) ∧
    parseSignalNoise "99999999999999999999 dBm / -92 dBm"
      = (9223372036854775807, -92) ∧
    ((9223372036854775807 : Int) ≠ 99999999999999999999) := by
  refine ⟨?_, by decide, by decide⟩
  exact ⟨false, ("99999999999999999999" : String).data, [' '], [' '], [' '], true,
    ['9', '2'], [' '], [], by decide, by decide, by decide, by decide, by decide,
    by decide, by decide, by decide, by decide, by decide, by decide⟩

/-- Witness for C7's amended statement: the example string matches the
pattern shape and the no-occurrence clause applies to the empty
string. -/
theorem parseSignalNoise_spec_witness :
    parseSignalNoise "-48 dBm / -92 dBm" = (clampInt64 (-48), clampInt64 (-92)) ∧
    parseSignalNoise "" = (0, 0) := by
  constructor
  · apply parseSignalNoise_spec.2.2.1
    exact ⟨true, ['4', '8'], [' '], [' '], [' '], true, ['9', '2'], [' '], [],
      by decide, by decide, by decide, by decide, by decide, by decide, by decide,
      by decide, by decide, by decide, by decide⟩
  · apply parseSignalNoise_spec.2.2.2
    intro i r n hsh
    have hsh' : SNShapeAt (List.drop i []) r n := hsh
    rw [List.drop_nil] at hsh'
    exact SNShapeAt_ne_nil r n hsh'

end Pocket
